import Mathlib

/-!
Shallow embedding of the Galois pthread thread pool
(src/src/ThreadPool_pthread.cpp) and proofs about its specification.

The embedding follows the source file form by form:
  - `Semaphore` wrappers model the return-code handling of sem_init,
    sem_destroy, sem_post (inside release) and the sem_wait retry loop
    (inside acquire), each of which calls GALOIS_DIE on failure;
  - `ThinBarrier` models the spin barrier, including the fact that its
    constructor body is empty and never writes the counter field;
  - `cascade` models ThreadPool_pthread::cascade, the binary fan-out;
  - `doWorkF` models the pointer loop of ThreadPool_pthread::doWork,
    fuelled because the C++ loop compares pointers with a disequality;
  - `runInternalModel` models one invocation of runInternal, executed
    under the single-invocation-at-a-time contract of the pool;
  - `initThread`, `ctorSpawnIds`, `destructorTrace`, `launchBody` and
    `resumeWorker` model construction, destruction and the worker loop.
Machine integers are modelled as Nat (the counters are unsigned in the
source) or Int (the barrier counter and OS return codes are C int).
-/

namespace GaloisTP

/-! ### Semaphore: OS primitive return-code handling (source lines 53-83) -/

/-- Diagnostic tag passed to GALOIS_DIE; the source always passes "PTHREAD". -/
inductive Diag where
  | PTHREAD
deriving DecidableEq

/-- Outcome of a wrapped OS primitive call: continue normally, or
terminate the process with a diagnostic (GALOIS_DIE). -/
inductive Outcome where
  | ok
  | die (d : Diag)
deriving DecidableEq

/-- errno value for an interrupted system call. -/
def EINTR : Nat := 4

/-- Semaphore constructor: if (sem_init(&sem, 0, val)) GALOIS_DIE("PTHREAD").
The argument is the return code of sem_init. -/
def sem_initW (rc : Int) : Outcome :=
  if rc ≠ 0 then Outcome.die Diag.PTHREAD else Outcome.ok

/-- Semaphore destructor: if (sem_destroy(&sem)) GALOIS_DIE("PTHREAD"). -/
def sem_destroyW (rc : Int) : Outcome :=
  if rc ≠ 0 then Outcome.die Diag.PTHREAD else Outcome.ok

/-- Semaphore::release(n): n iterations of sem_post, dying at the first
failing post. The list holds the successive sem_post return codes. -/
def semReleaseW : List Int → Outcome
  | [] => Outcome.ok
  | rc :: rest => if rc ≠ 0 then Outcome.die Diag.PTHREAD else semReleaseW rest

/-- Semaphore::acquire, inner loop for one unit:
while (((rc = sem_wait(&sem)) < 0) && (errno == EINTR)) { }; if (rc) GALOIS_DIE.
The list holds successive (return code, errno) pairs of sem_wait; `none`
means the thread is still blocked retrying when the supplied results end. -/
def semWaitLoop : List (Int × Nat) → Option Outcome
  | [] => none
  | (rc, err) :: rest =>
    if rc < 0 ∧ err = EINTR then semWaitLoop rest
    else if rc ≠ 0 then some (Outcome.die Diag.PTHREAD) else some Outcome.ok

/-- pthread_create wrapper in the constructor: nonzero return dies. -/
def pthread_createW (rc : Int) : Outcome :=
  if rc ≠ 0 then Outcome.die Diag.PTHREAD else Outcome.ok

/-- pthread_join wrapper in the destructor: nonzero return dies. -/
def pthread_joinW (rc : Int) : Outcome :=
  if rc ≠ 0 then Outcome.die Diag.PTHREAD else Outcome.ok

/-! ### ThinBarrier (source lines 85-96) -/

/-- The spin barrier: a single volatile int counter. -/
structure ThinBarrier where
  started : Int

/-- ThinBarrier constructor, ThinBarrier(int v) { }: the body is empty,
so the counter field keeps whatever value the underlying storage held
before construction; the argument v is discarded. -/
def ThinBarrier.construct (v : Int) (storage : Int) : ThinBarrier :=
  { started := storage }

/-- ThinBarrier::release: one atomic fetch-and-add of 1. -/
def ThinBarrier.releaseB (b : ThinBarrier) : ThinBarrier :=
  { started := b.started + 1 }

/-- n successive ThinBarrier::release calls. -/
def ThinBarrier.releaseN (b : ThinBarrier) : Nat → ThinBarrier
  | 0 => b
  | n + 1 => (b.releaseN n).releaseB

/-- ThinBarrier::acquire(n) spins while (started < n); this is the exit
condition of the spin, i.e. whether acquire returns in the given state. -/
def ThinBarrier.acquireDone (b : ThinBarrier) (n : Int) : Bool :=
  decide (n ≤ b.started)

/-- ThinBarrier::reset: started = 0. -/
def ThinBarrier.resetB (_ : ThinBarrier) : ThinBarrier :=
  { started := 0 }

/-- The pool singleton lives in static storage (static ThreadPool_pthread
pool in getSystemThreadPool), which C++ zero-initializes before any
constructor runs; this is the barrier state the constructor then sees,
since ThinBarrier.construct itself never writes the field. -/
def staticZeroBarrier : ThinBarrier :=
  { started := 0 }

theorem releaseN_started (b : ThinBarrier) (n : Nat) :
    (b.releaseN n).started = b.started + n := by
  induction n with
  | zero => simp [ThinBarrier.releaseN]
  | succ n ih => simp [ThinBarrier.releaseN, ThinBarrier.releaseB, ih]; omega

/-! ### cascade (source lines 120-127) -/

/-- const unsigned multiple = 2. -/
def multiple : Nat := 2

/-- ThreadPool_pthread::cascade(tid): for i in 1..multiple, with
n = tid * multiple + i, release starts[n] iff n < starting. The returned
list is the ids whose gates this call releases, in loop order. -/
def cascade (starting tid : Nat) : List Nat :=
  ((List.range multiple).map (fun i => tid * multiple + (i + 1))).filter
    (fun n => decide (n < starting))

theorem cascade_eq (starting tid : Nat) :
    cascade starting tid =
      [tid * 2 + 1, tid * 2 + 2].filter (fun n => decide (n < starting)) := rfl

theorem mem_cascade (starting tid n : Nat) :
    n ∈ cascade starting tid ↔
      (n = tid * 2 + 1 ∨ n = tid * 2 + 2) ∧ n < starting := by
  rw [cascade_eq]
  simp [List.mem_filter]

/-- The set of workers activated by the invocation cascade: worker 0 is
the initiator (runInternal calls cascade(0) and doWork on the invoking
thread), and a worker is activated when an activated worker releases its
gate, upon which it runs cascade itself (launch, source lines 148-157). -/
inductive Activated (starting : Nat) : Nat → Prop where
  | init : Activated starting 0
  | step (t n : Nat) : Activated starting t → n ∈ cascade starting t →
      Activated starting n

/-- All gate releases performed during one invocation with activation
count k: each activated worker t in {0, ..., k-1} runs cascade once. -/
def allReleases (k : Nat) : List Nat :=
  (List.range k).flatMap (cascade k)

theorem count_cascade (k t n : Nat) :
    (cascade k t).count n =
      if (n = t * 2 + 1 ∨ n = t * 2 + 2) ∧ n < k then 1 else 0 := by
  rw [cascade_eq]
  by_cases h1 : t * 2 + 1 < k <;> by_cases h2 : t * 2 + 2 < k <;>
    simp [h1, h2, List.count_cons, List.count_nil] <;> split_ifs <;> omega

theorem count_bind_list (l : List Nat) (f : Nat → List Nat) (n : Nat) :
    ((l.flatMap f).count n) = (l.map fun t => (f t).count n).sum := by
  induction l with
  | nil => simp
  | cons a l ih => simp [List.count_append, ih]

theorem sum_ind_range (k c : Nat) :
    ((List.range k).map fun t => if t = c then 1 else 0).sum =
      if c < k then 1 else 0 := by
  induction k with
  | zero => simp
  | succ k ih =>
    rw [List.range_succ]
    simp only [List.map_append, List.sum_append, ih, List.map_cons,
      List.map_nil, List.sum_cons, List.sum_nil]
    split_ifs <;> omega

/-- Each gate n with 1 ≤ n < k is released exactly once during the
cascade; gate 0 and gates ≥ k are never released. -/
theorem count_allReleases (k n : Nat) :
    (allReleases k).count n = if 0 < n ∧ n < k then 1 else 0 := by
  unfold allReleases
  rw [count_bind_list]
  by_cases hn : 0 < n ∧ n < k
  · obtain ⟨h1, h2⟩ := hn
    have hc : ∀ t ∈ List.range k,
        (cascade k t).count n = if t = (n - 1) / 2 then 1 else 0 := by
      intro t _
      rw [count_cascade]
      split_ifs <;> omega
    rw [List.map_congr_left hc, sum_ind_range]
    have : (n - 1) / 2 < k := by omega
    simp [this, h1, h2]
  · have hc : ∀ t ∈ List.range k, (cascade k t).count n = 0 := by
      intro t _
      rw [count_cascade]
      split_ifs with h
      · omega
      · rfl
    rw [List.map_congr_left hc]
    simp [hn, List.sum_eq_zero]

theorem activated_lt (k n : Nat) (hk : 1 ≤ k) (h : Activated k n) : n < k := by
  induction h with
  | init => omega
  | step t m _ hm _ => exact ((mem_cascade k t m).1 hm).2

theorem lt_activated (k : Nat) : ∀ n, n < k → Activated k n := by
  intro n
  induction n using Nat.strong_induction_on with
  | _ n ih =>
    intro hnk
    match n with
    | 0 => exact Activated.init
    | m + 1 =>
      refine Activated.step (m / 2) (m + 1) (ih (m / 2) (by omega) (by omega)) ?_
      rw [mem_cascade]
      omega

/-! ### doWork (source lines 129-136) -/

/-- ThreadPool_pthread::doWork: while (workPtr != workEndL) { (*workPtr)();
++workPtr; }. Pointers are modelled as Nat offsets into an ambient command
array `mem`; the loop is fuelled because the C++ guard is a disequality
(with workPtr past workEndL the loop never exits); the result is the list
of commands executed, in execution order, `none` when fuel runs out. -/
def doWorkF {α : Type} (mem : Nat → α) : Nat → Nat → Nat → Option (List α)
  | 0, _, _ => none
  | fuel + 1, workPtr, workEndL =>
    if workPtr = workEndL then some []
    else (doWorkF mem fuel (workPtr + 1) workEndL).map (mem workPtr :: ·)

theorem doWorkF_eq_aux {α : Type} (mem : Nat → α) (d : Nat) :
    ∀ b e : Nat, e - b = d → b ≤ e →
      doWorkF mem (d + 1) b e = some ((List.range' b d).map mem) := by
  induction d with
  | zero =>
    intro b e h1 h2
    have hbe : b = e := by omega
    subst hbe
    simp [doWorkF]
  | succ d ih =>
    intro b e h1 h2
    have hne : b ≠ e := by omega
    have hr : List.range' b (d + 1) = b :: List.range' (b + 1) d := rfl
    have hu : doWorkF mem (d + 1 + 1) b e =
        if b = e then some [] else
          (doWorkF mem (d + 1) (b + 1) e).map (mem b :: ·) := rfl
    rw [hu, if_neg hne, ih (b + 1) e (by omega) (by omega)]
    simp [hr]

/-- On a well-formed descriptor (begin ≤ end) doWork terminates and
executes exactly the commands at offsets b, b+1, ..., e-1 in order. -/
theorem doWorkF_eq {α : Type} (mem : Nat → α) (b e : Nat) (h : b ≤ e) :
    doWorkF mem (e - b + 1) b e = some ((List.range' b (e - b)).map mem) :=
  doWorkF_eq_aux mem (e - b) b e rfl h

/-! ### runInternal (source lines 199-216) -/

/-- num = std::min(std::max(num, 1U), maxThreads), the first statement of
runInternal. -/
def sanitize (maxThreads num : Nat) : Nat :=
  min (max num 1) maxThreads

/-- Number of times worker tid runs doWork during one invocation with
activation count k: once as initiator if tid = 0 (runInternal calls doWork
directly on the invoking thread), plus once per release of its gate (each
release lets launch complete one acquire and run one loop body). -/
def timesRun (k tid : Nat) : Nat :=
  (if tid = 0 then 1 else 0) + (allReleases k).count tid

/-- Observable outcome of one invocation, under the single-invocation
contract: per-worker executed command list, per-worker count of
started.release calls at end of round, the spin target of the final
started.acquire, and the final work descriptor. -/
structure Invocation (α : Type) where
  starting : Nat
  traces : Nat → List α
  increments : Nat → Nat
  spinTarget : Nat
  finalWorkBegin : Nat
  finalWorkEnd : Nat

/-- ThreadPool_pthread::runInternal(num, begin, end): sanitize num, store
starting and the descriptor, fence, reset the barrier, cascade from worker
0, run doWork on worker 0, spin on started.acquire(num - 1), then clear
the descriptor. Each woken worker (launch) runs cascade, doWork and one
started.release per wake. `none` when a doWork loop would not terminate
(ill-formed descriptor). -/
def runInternalModel {α : Type} (maxThreads : Nat) (mem : Nat → α)
    (num b e : Nat) : Option (Invocation α) :=
  let s := sanitize maxThreads num
  (doWorkF mem (e - b + 1) b e).map fun seq =>
    { starting := s
      traces := fun tid => (List.replicate (timesRun s tid) seq).flatten
      increments := fun tid => if tid = 0 then 0 else (allReleases s).count tid
      spinTarget := s - 1
      finalWorkBegin := 0
      finalWorkEnd := 0 }

theorem sanitize_pos (mt num : Nat) (h : 1 ≤ mt) : 1 ≤ sanitize mt num := by
  unfold sanitize
  omega

theorem sanitize_le (mt num : Nat) : sanitize mt num ≤ mt := by
  unfold sanitize
  omega

theorem timesRun_eq (k tid : Nat) (hk : 1 ≤ k) :
    timesRun k tid = if tid < k then 1 else 0 := by
  unfold timesRun
  rw [count_allReleases]
  split_ifs <;> omega

/-! ### initThread (source lines 108-118) and the constructor (169-183) -/

/-- Actions performed by ThreadPool_pthread::initThread, in order. -/
inductive TEv where
  | initTID (tid : Nat)
  | initPTS
  | bindProc (tid : Nat)
  | releaseStarted
deriving DecidableEq

/-- ThreadPool_pthread::initThread(tid): initTID, initPTS, then bind the
thread to processor tid unless GALOIS_DO_NOT_BIND_THREADS is set, or
tid = 0 and GALOIS_DO_NOT_BIND_MAIN_THREAD is set; finally
started.release(). dnb and dnbMain are the EnvCheck results of the two
variables (true = variable present). -/
def initThread (dnb dnbMain : Bool) (tid : Nat) : List TEv :=
  [TEv.initTID tid, TEv.initPTS]
    ++ (if !dnb && (tid != 0 || !dnbMain) then [TEv.bindProc tid] else [])
    ++ [TEv.releaseStarted]

/-- Ids of the OS threads spawned by the constructor loop
for (unsigned i = 1; i < maxThreads; ++i) pthread_create(...); each
spawned thread obtains its tid from the shared atomic counter, yielding
the distinct ids 1, ..., maxThreads - 1. -/
def ctorSpawnIds (maxThreads : Nat) : List Nat :=
  List.range' 1 (maxThreads - 1)

/-- Total number of started.release calls issued before
started.acquire(maxThreads) in the constructor can return: one from
initThread(0) on the constructing thread plus one from each spawned
thread running initThread(tid). -/
def startupSignals (dnb dnbMain : Bool) (maxThreads : Nat) : Nat :=
  (initThread dnb dnbMain 0).count TEv.releaseStarted
    + ((ctorSpawnIds maxThreads).map fun tid =>
        (initThread dnb dnbMain tid).count TEv.releaseStarted).sum

/-! ### launch (source lines 148-157) and the destructor (185-197) -/

/-- Global pool state as seen by a worker after the destructor has run:
shutdown flag, activation count, work descriptor and command memory. -/
structure PoolState (α : Type) where
  shutdown : Bool
  starting : Nat
  workBegin : Nat
  workEnd : Nat
  mem : Nat → α

/-- Events performed by a worker inside its launch loop. -/
inductive WEv (α : Type) where
  | wake
  | gateRelease (n : Nat)
  | execItem (x : α)
  | barrierInc

/-- One iteration body of launch after acquire returns: cascade(tid),
doWork, started.release(). (The sampling hooks around doWork perform no
pool-visible action.) `none` when the doWork loop would not terminate. -/
def launchBody {α : Type} (st : PoolState α) (tid : Nat) :
    Option (List (WEv α)) :=
  (doWorkF st.mem (st.workEnd - st.workBegin + 1) st.workBegin st.workEnd).map
    fun seq =>
      (cascade st.starting tid).map WEv.gateRelease
        ++ seq.map WEv.execItem ++ [WEv.barrierInc]

/-- The launch loop from its guard: while (!shutdown) { acquire; body }.
Fuel bounds the number of iterations; `none` means the loop is still
running (or a body diverged) when fuel runs out, `some tr` that the loop
exited having performed trace tr. The state is the post-destructor state,
constant across iterations. -/
def launchFrom {α : Type} (st : PoolState α) (tid : Nat) :
    Nat → Option (List (WEv α))
  | 0 => none
  | fuel + 1 =>
    if st.shutdown then some []
    else
      match launchBody st tid, launchFrom st tid fuel with
      | some body, some rest => some (WEv.wake :: body ++ rest)
      | _, _ => none

/-- A worker parked inside acquire mid-loop (it entered the loop while
shutdown was still false) that is resumed by a gate release: it completes
the iteration body, then re-tests the loop guard. -/
def resumeWorker {α : Type} (st : PoolState α) (tid : Nat) (fuel : Nat) :
    Option (List (WEv α)) :=
  match launchBody st tid, launchFrom st tid fuel with
  | some body, some rest => some (WEv.wake :: body ++ rest)
  | _, _ => none

/-- Pool state after the destructor stores: shutdown = true,
workBegin = workEnd = 0; starting keeps its value from the last run. -/
def postShutdownState {α : Type} (starting : Nat) (mem : Nat → α) :
    PoolState α :=
  { shutdown := true, starting := starting, workBegin := 0, workEnd := 0
    mem := mem }

/-- Actions of the destructor, in order. -/
inductive DEv where
  | setShutdownFlag
  | clearWorkDescriptor
  | memFence
  | releaseGate (i : Nat)
  | joinThread (i : Nat)
  | freeGates
  | freeThreads
deriving DecidableEq

/-- ThreadPool_pthread::~ThreadPool_pthread(): shutdown = true;
workBegin = workEnd = 0; __sync_synchronize(); release starts[i] for
i = 1, ..., maxThreads - 1 (directly, one per spawned worker, not via
cascade); join threads[i] for the same i; delete the arrays. -/
def destructorTrace (maxThreads : Nat) : List DEv :=
  [DEv.setShutdownFlag, DEv.clearWorkDescriptor, DEv.memFence]
    ++ (List.range' 1 (maxThreads - 1)).map DEv.releaseGate
    ++ (List.range' 1 (maxThreads - 1)).map DEv.joinThread
    ++ [DEv.freeGates, DEv.freeThreads]

/-! ### The instruction order of runInternal, for the publish fence -/

/-- Pool-visible actions of one whole invocation, linearized. -/
inductive REv where
  | storeStarting (s : Nat)
  | storeWorkBegin (b : Nat)
  | storeWorkEnd (e : Nat)
  | memFence
  | resetBarrier
  | gateRelease (n : Nat)
  | execWork
  | spinWait (target : Nat)
  | clearDescriptor
deriving DecidableEq

/-- Linearized action sequence of runInternal(num, b, e): the three
publishing stores, the __sync_synchronize fence, started.reset, then the
cascade (every gate release of the round, whether performed by worker 0
or by a woken worker, is caused by a wake that follows the initial
cascade(0) call and hence follows the fence), the doWork executions, the
spin on started.acquire(num - 1) and the descriptor clear. -/
def runInternalTrace (maxThreads num b e : Nat) : List REv :=
  let s := sanitize maxThreads num
  [REv.storeStarting s, REv.storeWorkBegin b, REv.storeWorkEnd e,
      REv.memFence, REv.resetBarrier]
    ++ (allReleases s).map REv.gateRelease
    ++ [REv.execWork, REv.spinWait (s - 1), REv.clearDescriptor]

/-! ### Further list helpers -/

theorem count_range' (s n m : Nat) :
    (List.range' s n).count m = if s ≤ m ∧ m < s + n then 1 else 0 := by
  induction n generalizing s with
  | zero =>
    simp only [List.range', List.count_nil]
    split_ifs <;> omega
  | succ n ih =>
    have hr : List.range' s (n + 1) = s :: List.range' (s + 1) n := rfl
    rw [hr, List.count_cons, ih (s + 1)]
    simp only [beq_iff_eq]
    split_ifs <;> omega

theorem sum_map_ones {α : Type} (l : List α) :
    (l.map fun _ => (1 : Nat)).sum = l.length := by
  induction l with
  | nil => rfl
  | cons a l ih =>
    simp only [List.map_cons, List.sum_cons, ih, List.length_cons]
    omega

theorem pairwise_lt_range'_one (n : Nat) :
    ∀ s, List.Pairwise (· < ·) (List.range' s n) := by
  induction n with
  | zero => intro s; exact List.Pairwise.nil
  | succ n ih =>
    intro s
    have hr : List.range' s (n + 1) = s :: List.range' (s + 1) n := rfl
    rw [hr]
    refine List.Pairwise.cons ?_ (ih (s + 1))
    intro m hm
    have := List.mem_range'_1.1 hm
    omega

/-! ## Claim theorems -/

/-- C1: for every activation count k with 1 ≤ k ≤ maxThreads, the cascade
started by worker 0 activates exactly the set {0, ..., k-1}: a worker is
activated iff its id is below k, each gate n with 1 ≤ n < k is released
exactly once (worker 0, the initiator, is never released through a gate),
no gate with id ≥ k is ever released, and for k = 1 no gate is released. -/
theorem cascade_activation (maxThreads k : Nat) (hk1 : 1 ≤ k)
    (hk2 : k ≤ maxThreads) :
    (∀ n, Activated k n ↔ n < k) ∧
    (∀ n, (allReleases k).count n = if 0 < n ∧ n < k then 1 else 0) ∧
    (k = 1 → allReleases k = []) := by
  refine ⟨fun n => ⟨activated_lt k n hk1, lt_activated k n⟩,
    count_allReleases k, ?_⟩
  intro h
  subst h
  rfl

theorem cascade_activation_inst :
    ((1 ≤ 3 ∧ 3 ≤ 8) ∧ (Activated 3 2 ↔ 2 < 3)) ∧
    (allReleases 3).count 7 = if 0 < 7 ∧ 7 < 3 then 1 else 0 :=
  ⟨⟨⟨by omega, by omega⟩, (cascade_activation 8 3 (by omega) (by omega)).1 2⟩,
    (cascade_activation 8 3 (by omega) (by omega)).2.1 7⟩

/-- C2: for every invocation with a well-formed descriptor, when the call
returns every worker with id below the clamped count starting has executed
the published work-item sequence in order, each item exactly once, all
activated workers running the identical sequence; workers with id ≥
starting execute nothing; and the work descriptor has been cleared. -/
theorem run_executes_all {α : Type} (mt num b e : Nat) (mem : Nat → α)
    (hmt : 1 ≤ mt) (hbe : b ≤ e) :
    ∃ inv, runInternalModel mt mem num b e = some inv ∧
      inv.starting = sanitize mt num ∧
      (∀ tid, tid < inv.starting →
        inv.traces tid = (List.range' b (e - b)).map mem) ∧
      (∀ tid, inv.starting ≤ tid → inv.traces tid = []) ∧
      inv.finalWorkBegin = 0 ∧ inv.finalWorkEnd = 0 := by
  have hs1 : 1 ≤ sanitize mt num := sanitize_pos mt num hmt
  have hrun : runInternalModel mt mem num b e = some
      { starting := sanitize mt num
        traces := fun tid =>
          (List.replicate (timesRun (sanitize mt num) tid)
            ((List.range' b (e - b)).map mem)).flatten
        increments := fun tid =>
          if tid = 0 then 0 else (allReleases (sanitize mt num)).count tid
        spinTarget := sanitize mt num - 1
        finalWorkBegin := 0
        finalWorkEnd := 0 } := by
    unfold runInternalModel
    rw [doWorkF_eq mem b e hbe]
    rfl
  refine ⟨_, hrun, rfl, ?_, ?_, rfl, rfl⟩
  · intro tid htid
    dsimp only at htid ⊢
    rw [timesRun_eq _ _ hs1, if_pos htid]
    simp
  · intro tid htid
    dsimp only at htid ⊢
    rw [timesRun_eq _ _ hs1, if_neg (by omega)]
    simp

theorem run_executes_all_inst :
    (1 ≤ 4 ∧ 0 ≤ 3) ∧
    ∃ inv, runInternalModel 4 (fun i => i) 9 0 3 = some inv ∧
      inv.starting = sanitize 4 9 ∧
      (∀ tid, tid < inv.starting →
        inv.traces tid = (List.range' 0 (3 - 0)).map (fun i => i)) ∧
      (∀ tid, inv.starting ≤ tid → inv.traces tid = []) ∧
      inv.finalWorkBegin = 0 ∧ inv.finalWorkEnd = 0 :=
  ⟨⟨by omega, by omega⟩,
    run_executes_all 4 9 0 3 (fun i => i) (by omega) (by omega)⟩

/-- C3, counterexample: the claim that the initiator (worker 0) itself
increments the rendezvous counter exactly once at invocation end, and that
it spins until the counter reaches starting, is false on the code: at
maxThreads = 4, num = 2, descriptor [0, 3), worker 0 performs no
started.release in runInternal and the spin target of
started.acquire(num - 1) is starting - 1 = 1, not starting = 2. -/
theorem initiator_increment_counterexample :
    (runInternalModel 4 (fun i => i) 2 0 3).map
        (fun inv => decide
          (¬ (inv.increments 0 = 1 ∧ inv.spinTarget = inv.starting))) =
      some true := by
  rfl

/-- C3, amended: at the end of every invocation each of the starting - 1
non-initiator activated workers increments the rendezvous counter via an
atomic add exactly once; the initiator performs no end-of-invocation
increment, and it spins until the counter reaches starting - 1 before run
returns. -/
theorem rendezvous_increments {α : Type} (mt num b e : Nat) (mem : Nat → α)
    (hmt : 1 ≤ mt) (hbe : b ≤ e) :
    ∃ inv, runInternalModel mt mem num b e = some inv ∧
      inv.increments 0 = 0 ∧
      (∀ tid, 0 < tid → tid < inv.starting → inv.increments tid = 1) ∧
      (∀ tid, inv.starting ≤ tid → inv.increments tid = 0) ∧
      inv.spinTarget = inv.starting - 1 := by
  have hs1 : 1 ≤ sanitize mt num := sanitize_pos mt num hmt
  have hrun : runInternalModel mt mem num b e = some
      { starting := sanitize mt num
        traces := fun tid =>
          (List.replicate (timesRun (sanitize mt num) tid)
            ((List.range' b (e - b)).map mem)).flatten
        increments := fun tid =>
          if tid = 0 then 0 else (allReleases (sanitize mt num)).count tid
        spinTarget := sanitize mt num - 1
        finalWorkBegin := 0
        finalWorkEnd := 0 } := by
    unfold runInternalModel
    rw [doWorkF_eq mem b e hbe]
    rfl
  refine ⟨_, hrun, rfl, ?_, ?_, rfl⟩
  · intro tid h0 htid
    dsimp only at htid ⊢
    rw [if_neg (by omega), count_allReleases, if_pos (by exact ⟨h0, htid⟩)]
  · intro tid htid
    dsimp only at htid ⊢
    rw [count_allReleases]
    split_ifs <;> omega

theorem rendezvous_increments_inst :
    (1 ≤ 4 ∧ 0 ≤ 3) ∧
    ∃ inv, runInternalModel 4 (fun i => i) 3 0 3 = some inv ∧
      inv.increments 0 = 0 ∧
      (∀ tid, 0 < tid → tid < inv.starting → inv.increments tid = 1) ∧
      (∀ tid, inv.starting ≤ tid → inv.increments tid = 0) ∧
      inv.spinTarget = inv.starting - 1 :=
  ⟨⟨by omega, by omega⟩,
    rendezvous_increments 4 3 0 3 (fun i => i) (by omega) (by omega)⟩

theorem initThread_signal_once (dnb dnbm : Bool) (tid : Nat) :
    (initThread dnb dnbm tid).count TEv.releaseStarted = 1 := by
  by_cases h : (!dnb && (tid != 0 || !dnbm)) = true <;>
    simp [initThread, h, List.count_append, List.count_cons]

/-- C4: the constructor blocks until exactly maxThreads workers have
signaled ready on the startup rendezvous: the total number of ready
signals is maxThreads (worker 0 plus the maxThreads - 1 spawned threads,
with distinct, increasing ids), each worker signals exactly once and only
after its id assignment, binding and per-thread initialization, the
zero-started barrier does not let acquire(maxThreads) return before the
maxThreads-th release, and maxThreads = 1 spawns no OS threads. -/
theorem ctor_rendezvous (dnb dnbm : Bool) (mt : Nat) (hmt : 1 ≤ mt) :
    startupSignals dnb dnbm mt = mt ∧
    (∀ tid, (initThread dnb dnbm tid).count TEv.releaseStarted = 1 ∧
      ∃ pre, initThread dnb dnbm tid = pre ++ [TEv.releaseStarted]) ∧
    (∀ n, n < mt →
      ThinBarrier.acquireDone (staticZeroBarrier.releaseN n) (mt : Int)
        = false) ∧
    ThinBarrier.acquireDone (staticZeroBarrier.releaseN mt) (mt : Int)
      = true ∧
    (mt = 1 → ctorSpawnIds mt = []) ∧
    (ctorSpawnIds mt).length = mt - 1 ∧
    List.Pairwise (· < ·) (ctorSpawnIds mt) := by
  refine ⟨?_, ?_, ?_, ?_, ?_, ?_, pairwise_lt_range'_one (mt - 1) 1⟩
  · unfold startupSignals
    rw [initThread_signal_once,
      List.map_congr_left (fun tid _ => initThread_signal_once dnb dnbm tid),
      sum_map_ones]
    unfold ctorSpawnIds
    rw [List.length_range']
    omega
  · intro tid
    refine ⟨initThread_signal_once dnb dnbm tid,
      [TEv.initTID tid, TEv.initPTS]
        ++ (if !dnb && (tid != 0 || !dnbm) then [TEv.bindProc tid] else []),
      ?_⟩
    simp [initThread]
  · intro n hn
    simp only [ThinBarrier.acquireDone, releaseN_started, staticZeroBarrier,
      decide_eq_false_iff_not]
    omega
  · simp only [ThinBarrier.acquireDone, releaseN_started, staticZeroBarrier,
      decide_eq_true_eq]
    omega
  · intro h
    subst h
    rfl
  · unfold ctorSpawnIds
    rw [List.length_range']

theorem ctor_rendezvous_inst :
    (1 ≤ 4) ∧ startupSignals false false 4 = 4 ∧ ctorSpawnIds 4 ≠ [] :=
  ⟨by omega, (ctor_rendezvous false false 4 (by omega)).1, by decide⟩

/-- C5: the claim that the ThinBarrier constructor establishes a zero
initial count is contradicted by the code: the constructor body is empty,
so a barrier constructed with argument 0 over storage that happens to
hold 5 reads count 5, and acquire(2) then returns with no release having
occurred. (In the shipped program only the zero-initialization of the
static singleton storage masks this; the constructor itself writes
nothing.) -/
theorem thinBarrier_ctor_writes_nothing :
    (ThinBarrier.construct 0 5).started = 5 ∧
    (ThinBarrier.construct 0 5).started ≠ 0 ∧
    ThinBarrier.acquireDone (ThinBarrier.construct 0 5) 2 = true := by
  refine ⟨rfl, by decide, rfl⟩

theorem runInternalModel_congrArg {α : Type} (mt a b c e : Nat)
    (mem : Nat → α) (h : sanitize mt a = sanitize mt b) :
    runInternalModel mt mem a c e = runInternalModel mt mem b c e := by
  unfold runInternalModel
  rw [h]

/-- C6: run clamps the requested count to [1, maxThreads] before any
other effect: run(0) behaves identically to run(1), run(maxThreads + n)
identically to run(maxThreads) for every n > 0, the whole invocation
depends on the request only through its clamped value, and the effective
count always satisfies 1 ≤ starting ≤ maxThreads. -/
theorem run_clamps {α : Type} (mt num n b e : Nat) (mem : Nat → α)
    (hmt : 1 ≤ mt) (hn : 0 < n) :
    runInternalModel mt mem 0 b e = runInternalModel mt mem 1 b e ∧
    runInternalModel mt mem (mt + n) b e = runInternalModel mt mem mt b e ∧
    runInternalModel mt mem num b e =
      runInternalModel mt mem (sanitize mt num) b e ∧
    1 ≤ sanitize mt num ∧ sanitize mt num ≤ mt := by
  refine ⟨runInternalModel_congrArg mt 0 1 b e mem (by unfold sanitize; omega),
    runInternalModel_congrArg mt (mt + n) mt b e mem (by unfold sanitize; omega),
    runInternalModel_congrArg mt num (sanitize mt num) b e mem
      (by unfold sanitize; omega),
    sanitize_pos mt num hmt, sanitize_le mt num⟩

theorem run_clamps_inst :
    (1 ≤ 4 ∧ 0 < 2) ∧
    runInternalModel 4 (fun i => i) 0 0 3 =
      runInternalModel 4 (fun i => i) 1 0 3 ∧
    runInternalModel 4 (fun i => i) (4 + 2) 0 3 =
      runInternalModel 4 (fun i => i) 4 0 3 :=
  ⟨⟨by omega, by omega⟩,
    (run_clamps 4 9 2 0 3 (fun i => i) (by omega) (by omega)).1,
    (run_clamps 4 9 2 0 3 (fun i => i) (by omega) (by omega)).2.1⟩

theorem releaseGate_injective : Function.Injective DEv.releaseGate := by
  intro a b h
  injection h

theorem joinThread_injective : Function.Injective DEv.joinThread := by
  intro a b h
  injection h

/-- C7: the destructor sets the shutdown flag, clears the work descriptor,
fences, releases the gate of each spawned worker 1, ..., maxThreads - 1
exactly once each (directly, none for worker 0, none twice), then joins
each spawned thread exactly once, joins all coming after all releases; and
in the resulting state every released worker finishes its current loop
iteration executing no work items and exits the run loop (fuel 1 suffices,
so the loop is left after the single pending iteration). -/
theorem destructor_shutdown {α : Type} (mt s : Nat) (mem : Nat → α) :
    (destructorTrace mt).take 3 =
      [DEv.setShutdownFlag, DEv.clearWorkDescriptor, DEv.memFence] ∧
    (∀ i, (destructorTrace mt).count (DEv.releaseGate i) =
      if 1 ≤ i ∧ i < mt then 1 else 0) ∧
    (∀ i, (destructorTrace mt).count (DEv.joinThread i) =
      if 1 ≤ i ∧ i < mt then 1 else 0) ∧
    ((destructorTrace mt).drop 3).take (mt - 1) =
      (ctorSpawnIds mt).map DEv.releaseGate ∧
    ((destructorTrace mt).drop 3).drop (mt - 1) =
      (ctorSpawnIds mt).map DEv.joinThread
        ++ [DEv.freeGates, DEv.freeThreads] ∧
    (∀ tid, ∃ tr, resumeWorker (postShutdownState s mem) tid 1 = some tr ∧
      ∀ x, WEv.execItem x ∉ tr) := by
  have hlen : ((List.range' 1 (mt - 1)).map DEv.releaseGate).length = mt - 1 := by
    rw [List.length_map, List.length_range']
  have hshape : destructorTrace mt =
      [DEv.setShutdownFlag, DEv.clearWorkDescriptor, DEv.memFence]
        ++ ((List.range' 1 (mt - 1)).map DEv.releaseGate
          ++ ((List.range' 1 (mt - 1)).map DEv.joinThread
            ++ [DEv.freeGates, DEv.freeThreads])) := by
    simp [destructorTrace, ctorSpawnIds]
  have hdrop : (destructorTrace mt).drop 3 =
      (List.range' 1 (mt - 1)).map DEv.releaseGate
        ++ ((List.range' 1 (mt - 1)).map DEv.joinThread
          ++ [DEv.freeGates, DEv.freeThreads]) := by
    rw [hshape]
    exact List.drop_left' rfl
  refine ⟨rfl, ?_, ?_, ?_, ?_, ?_⟩
  · intro i
    have h1 : ((List.range' 1 (mt - 1)).map DEv.releaseGate).count
        (DEv.releaseGate i) = (List.range' 1 (mt - 1)).count i :=
      List.count_map_of_injective _ _ releaseGate_injective i
    have h2 : ((List.range' 1 (mt - 1)).map DEv.joinThread).count
        (DEv.releaseGate i) = 0 := by
      rw [List.count_eq_zero]
      simp
    have h3 : ([DEv.setShutdownFlag, DEv.clearWorkDescriptor,
        DEv.memFence] : List DEv).count (DEv.releaseGate i) = 0 := rfl
    have h4 : ([DEv.freeGates, DEv.freeThreads] : List DEv).count
        (DEv.releaseGate i) = 0 := rfl
    rw [hshape, List.count_append, List.count_append, List.count_append,
      h1, h2, h3, h4, count_range']
    split_ifs <;> omega
  · intro i
    have h1 : ((List.range' 1 (mt - 1)).map DEv.joinThread).count
        (DEv.joinThread i) = (List.range' 1 (mt - 1)).count i :=
      List.count_map_of_injective _ _ joinThread_injective i
    have h2 : ((List.range' 1 (mt - 1)).map DEv.releaseGate).count
        (DEv.joinThread i) = 0 := by
      rw [List.count_eq_zero]
      simp
    have h3 : ([DEv.setShutdownFlag, DEv.clearWorkDescriptor,
        DEv.memFence] : List DEv).count (DEv.joinThread i) = 0 := rfl
    have h4 : ([DEv.freeGates, DEv.freeThreads] : List DEv).count
        (DEv.joinThread i) = 0 := rfl
    rw [hshape, List.count_append, List.count_append, List.count_append,
      h1, h2, h3, h4, count_range']
    split_ifs <;> omega
  · rw [hdrop, List.take_left' hlen]
    rfl
  · rw [hdrop, List.drop_left' hlen]
    rfl
  · intro tid
    have hb : launchBody (postShutdownState s mem) tid =
        some ((cascade s tid).map WEv.gateRelease ++ [WEv.barrierInc]) := by
      simp [launchBody, postShutdownState, doWorkF]
    have hr : resumeWorker (postShutdownState s mem) tid 1 =
        some (WEv.wake ::
          ((cascade s tid).map WEv.gateRelease ++ [WEv.barrierInc])) := by
      rw [resumeWorker, hb]
      simp [launchFrom, postShutdownState]
    refine ⟨_, hr, ?_⟩
    intro x
    simp

/-- C8: every failure of an OS synchronization or thread primitive
(sem_init, sem_destroy, a sem_post inside release, a sem_wait failing with
an error other than EINTR, pthread_create, pthread_join) terminates the
process with the PTHREAD diagnostic; a sem_wait interrupted by EINTR is
retried and is not a failure; successes continue normally, with no retry
or degradation path in any fatal case. -/
theorem primitive_failures_fatal (rc : Int) (err : Nat)
    (rest : List (Int × Nat)) (posts : List Int) (hrc : rc ≠ 0) :
    sem_initW rc = Outcome.die Diag.PTHREAD ∧
    sem_destroyW rc = Outcome.die Diag.PTHREAD ∧
    pthread_createW rc = Outcome.die Diag.PTHREAD ∧
    pthread_joinW rc = Outcome.die Diag.PTHREAD ∧
    semReleaseW (rc :: posts) = Outcome.die Diag.PTHREAD ∧
    semWaitLoop ((-1, EINTR) :: rest) = semWaitLoop rest ∧
    (¬ (rc < 0 ∧ err = EINTR) →
      semWaitLoop ((rc, err) :: rest) = some (Outcome.die Diag.PTHREAD)) ∧
    semWaitLoop ((0, err) :: rest) = some Outcome.ok ∧
    sem_initW 0 = Outcome.ok ∧ sem_destroyW 0 = Outcome.ok ∧
    pthread_createW 0 = Outcome.ok ∧ pthread_joinW 0 = Outcome.ok ∧
    semReleaseW [] = Outcome.ok := by
  refine ⟨by simp [sem_initW, hrc], by simp [sem_destroyW, hrc],
    by simp [pthread_createW, hrc], by simp [pthread_joinW, hrc],
    by simp [semReleaseW, hrc], by simp [semWaitLoop, EINTR], ?_,
    by simp [semWaitLoop, EINTR], rfl, rfl, rfl, rfl, rfl⟩
  intro h
  simp [semWaitLoop, h, hrc]

theorem primitive_failures_fatal_inst :
    ((1 : Int) ≠ 0 ∧ sem_initW 1 = Outcome.die Diag.PTHREAD) ∧
    semWaitLoop [((-1 : Int), EINTR), (0, 0)] = semWaitLoop [(0, 0)] :=
  ⟨⟨by omega, (primitive_failures_fatal 1 0 [] [] (by omega)).1⟩,
    (primitive_failures_fatal 1 0 [((0 : Int), 0)] [] (by omega)).2.2.2.2.2.1⟩

/-- C9: during one-time initialization, worker tid pins itself to
processor tid iff GALOIS_DO_NOT_BIND_THREADS is unset and, additionally
when tid = 0, GALOIS_DO_NOT_BIND_MAIN_THREAD is unset; the main-thread
option has no effect on any worker other than 0. -/
theorem bind_policy (dnb dnbm : Bool) (tid : Nat) :
    (TEv.bindProc tid ∈ initThread dnb dnbm tid ↔
      dnb = false ∧ (tid = 0 → dnbm = false)) ∧
    (tid ≠ 0 → initThread dnb true tid = initThread dnb false tid) := by
  constructor
  · by_cases htid : tid = 0 <;> cases dnb <;> cases dnbm <;>
      simp [initThread, htid]
  · intro h
    cases dnb <;> simp [initThread, h]

theorem bind_policy_inst :
    (TEv.bindProc 0 ∈ initThread false true 0 ↔
      false = false ∧ ((0 : Nat) = 0 → true = false)) ∧
    ((1 : Nat) ≠ 0 → initThread false true 1 = initThread false false 1) :=
  bind_policy false true 0 |>.1 |> fun h =>
    ⟨h, (bind_policy false true 1).2⟩

/-- C10: in every invocation the stores publishing starting, workBegin
and workEnd all precede the full memory fence in program order, and every
gate release of the round (the releases of the cascade, including those
of every woken worker) comes after the fence; in particular the gate of
every woken worker tid with 0 < tid < starting is released only after the
fence, so its wake observes the published descriptor. -/
theorem publish_fence_order (mt num b e : Nat) :
    runInternalTrace mt num b e =
      [REv.storeStarting (sanitize mt num), REv.storeWorkBegin b,
        REv.storeWorkEnd e, REv.memFence]
        ++ (runInternalTrace mt num b e).drop 4 ∧
    (∀ n, REv.gateRelease n ∉ (runInternalTrace mt num b e).take 4) ∧
    (∀ n, REv.gateRelease n ∈ (runInternalTrace mt num b e).drop 4 ↔
      n ∈ allReleases (sanitize mt num)) ∧
    (∀ tid, 0 < tid → tid < sanitize mt num →
      REv.gateRelease tid ∈ (runInternalTrace mt num b e).drop 4) := by
  have hdrop : (runInternalTrace mt num b e).drop 4 =
      REv.resetBarrier :: ((allReleases (sanitize mt num)).map
        REv.gateRelease
        ++ [REv.execWork, REv.spinWait (sanitize mt num - 1),
            REv.clearDescriptor]) := rfl
  have hmem : ∀ n, REv.gateRelease n ∈ (runInternalTrace mt num b e).drop 4 ↔
      n ∈ allReleases (sanitize mt num) := by
    intro n
    rw [hdrop]
    simp
  refine ⟨rfl, ?_, hmem, ?_⟩
  · intro n
    simp [runInternalTrace]
  · intro tid h0 hlt
    rw [hmem]
    have hc : (allReleases (sanitize mt num)).count tid = 1 := by
      rw [count_allReleases, if_pos ⟨h0, hlt⟩]
    by_contra h
    rw [List.count_eq_zero_of_not_mem h] at hc
    omega

theorem publish_fence_order_inst :
    REv.gateRelease 1 ∈ (runInternalTrace 4 2 0 3).drop 4 :=
  (publish_fence_order 4 2 0 3).2.2.2 1 (by omega) (by decide)

end GaloisTP
